import Mathlib

/-!
# Verification of the `cudlb::rb_tree` red-black tree (`src/device_rb_tree.h`)

Shallow embedding of the pointer-based red-black tree of `device_rb_tree.h`.

Modelling conventions:
* A device pointer is a `Nat`; `0` plays the role of `nullptr`.
* The device memory is an association list `Heap` from addresses to nodes;
  dereferencing `nullptr` or an unallocated address yields `none` (the C++
  code would exhibit undefined behaviour there), so every statefull
  operation returns `Option`.
* The struct `rb_tree_impl` of the source (fields `root`, `begin`, `end`,
  comparator, allocator) becomes a state record; `begin`/`end` are Lean
  keywords so the fields are named `begin_`/`end_`.  The comparator is the
  default `cudlb::less<T>`, i.e. `<` on `Int`; the allocator is a bump
  allocator represented by the `next` fresh-address field.
* `while` loops become fuel-indexed recursion; exhausted fuel yields `none`.
* Reads and writes are performed in exactly the order of the C++ statements,
  re-reading a field from the current heap whenever the source dereferences
  a pointer again.
-/

namespace cudlb

/-- `enum class rb_tree_colour { black, red }`. -/
inductive rb_tree_colour where
  | black
  | red
deriving DecidableEq, Repr

/-- `struct rb_tree_node` for `T = int`: value, parent/left/right links, colour. -/
structure rb_tree_node where
  val : Int
  parent : Nat
  left : Nat
  right : Nat
  colour : rb_tree_colour
deriving DecidableEq, Repr

/-- The null pointer. -/
def nullptr : Nat := 0

/-- Device memory: association list from addresses to nodes. -/
abbrev Heap := List (Nat × rb_tree_node)

/-- Dereference a pointer.  `nullptr` and unallocated addresses yield `none`. -/
def hget (h : Heap) (p : Nat) : Option rb_tree_node :=
  if p = nullptr then none else h.lookup p

/-- Overwrite the node stored at an (already bound) address. -/
def hset (h : Heap) (p : Nat) (n : rb_tree_node) : Heap :=
  match h with
  | [] => []
  | (q, m) :: t => if q = p then (q, n) :: t else (q, m) :: hset t p n

/-- `x->parent = q` : crashes (`none`) when `x` is null/unallocated. -/
def setParent (h : Heap) (p q : Nat) : Option Heap :=
  (hget h p).map fun n => hset h p { n with parent := q }

/-- `x->left = q`. -/
def setLeft (h : Heap) (p q : Nat) : Option Heap :=
  (hget h p).map fun n => hset h p { n with left := q }

/-- `x->right = q`. -/
def setRight (h : Heap) (p q : Nat) : Option Heap :=
  (hget h p).map fun n => hset h p { n with right := q }

/-- `x->colour = c`. -/
def setColour (h : Heap) (p : Nat) (c : rb_tree_colour) : Option Heap :=
  (hget h p).map fun n => hset h p { n with colour := c }

/-- `struct rb_tree_impl` plus the device memory and the allocator bump pointer. -/
structure rb_tree_impl where
  heap : Heap
  root : Nat
  begin_ : Nat
  end_ : Nat
  next : Nat
deriving DecidableEq, Repr

/-- The default constructor `rb_tree()` : `root = begin = end = nullptr`, no
allocation performed. -/
def rb_tree_default : rb_tree_impl :=
  { heap := [], root := nullptr, begin_ := nullptr, end_ := nullptr, next := 1 }

/-- The single-value constructor `rb_tree(value const&)` :
`impl.root = impl.begin = impl.alloc.allocate(); impl.alloc.construct(impl.root, val)`;
the node constructor sets parent/left/right to `nullptr` and the colour black. -/
def rb_tree_single (v : Int) : rb_tree_impl :=
  { heap := [(1, { val := v, parent := nullptr, left := nullptr, right := nullptr,
                   colour := rb_tree_colour.black })],
    root := 1, begin_ := 1, end_ := nullptr, next := 2 }

/-- The last two statements of `rb_tree::left_rotate` (lines 338-339):
`y->left = x; x->parent = y;`. -/
def left_rotate_finish (s4 : rb_tree_impl) (x y : Nat) : Option rb_tree_impl := do
  let h5 ← setLeft s4.heap y x
  let h6 ← setParent h5 x y
  some { s4 with heap := h6 }

/-- Lines 324-337 of `rb_tree::left_rotate`:
`y->parent = x->parent;` followed by the root / parent-child update and the
final statements. -/
def left_rotate_link (s : rb_tree_impl) (h2 : Heap) (x y : Nat) :
    Option rb_tree_impl := do
  let xn2 ← hget h2 x
  let h3 ← setParent h2 y xn2.parent
  if xn2.parent = s.end_ then
    left_rotate_finish { s with heap := h3, root := y } x y
  else do
    let pn ← hget h3 xn2.parent
    if x = pn.left then do
      let h4 ← setLeft h3 xn2.parent y
      left_rotate_finish { s with heap := h4 } x y
    else do
      let h4 ← setRight h3 xn2.parent y
      left_rotate_finish { s with heap := h4 } x y

/-- `rb_tree::left_rotate(node* x)`, lines 313-341 of `device_rb_tree.h`.
`y` is `x->right`. -/
def left_rotate (s : rb_tree_impl) (x : Nat) : Option rb_tree_impl := do
  let xn ← hget s.heap x
  if xn.right ≠ s.end_ then do
    -- node* y = x->right; x->right = y->left
    let yn ← hget s.heap xn.right
    let h1 ← setRight s.heap x yn.left
    -- if (y->left != impl.end) y->left->parent = x
    if yn.left ≠ s.end_ then do
      let h2 ← setParent h1 yn.left x
      left_rotate_link s h2 x xn.right
    else
      left_rotate_link s h1 x xn.right
  else
    some s

/-- The last two statements of `rb_tree::right_rotate` (lines 367-368):
`x->right = y; y->parent = x;`. -/
def right_rotate_finish (s4 : rb_tree_impl) (y x : Nat) : Option rb_tree_impl := do
  let h5 ← setRight s4.heap x y
  let h6 ← setParent h5 y x
  some { s4 with heap := h6 }

/-- Lines 354-366 of `rb_tree::right_rotate`:
`x->parent = y->parent;` followed by the (mis-conditioned) root /
parent-child update and the final statements. -/
def right_rotate_link (s : rb_tree_impl) (h2 : Heap) (y x : Nat) :
    Option rb_tree_impl := do
  let yn2 ← hget h2 y
  let h3 ← setParent h2 x yn2.parent
  -- if (y == impl.end) impl.root = x; else if (y == y->parent->left) ...
  if y = s.end_ then
    right_rotate_finish { s with heap := h3, root := x } y x
  else do
    let pn ← hget h3 yn2.parent
    if y = pn.left then do
      let h4 ← setLeft h3 yn2.parent x
      right_rotate_finish { s with heap := h4 } y x
    else do
      let h4 ← setRight h3 yn2.parent x
      right_rotate_finish { s with heap := h4 } y x

/-- `rb_tree::right_rotate(node* y)`, lines 343-370 of `device_rb_tree.h`.
`x` is `y->left`. -/
def right_rotate (s : rb_tree_impl) (y : Nat) : Option rb_tree_impl := do
  let yn ← hget s.heap y
  if yn.left ≠ s.end_ then do
    -- node* x = y->left; y->left = x->right
    let xn ← hget s.heap yn.left
    let h1 ← setLeft s.heap y xn.right
    -- if (x->right != impl.end) x->right->parent = y
    if xn.right ≠ s.end_ then do
      let h2 ← setParent h1 xn.right y
      right_rotate_link s h2 y yn.left
    else
      right_rotate_link s h1 y yn.left
  else
    some s

/-- The BST descent loop of `rb_tree::insert` (lines 107-121):
`y = impl.end; x = impl.root; while (x != impl.end) { y = x; if (comp(z->val, x->val)) x = x->left; else x = x->right; }`
returning the final `y`.  The comparator is `cudlb::less`, i.e. `<`. -/
def insert_descend (s : rb_tree_impl) (zval : Int) : Nat → Nat → Nat → Option Nat
  | _, _, 0 => none
  | x, y, fuel+1 =>
    if x ≠ s.end_ then do
      let xn ← hget s.heap x
      if zval < xn.val then insert_descend s zval xn.left x fuel
      else insert_descend s zval xn.right x fuel
    else some y

/-- Lines 286-288 (and the identical lines 305-307) of `rb_tree::insert_fixup`:
`z->parent->colour = black; z->parent->parent->colour = red; right_rotate(z->parent->parent);`
These lines are executed on every loop iteration: in the source they are not
under the `else` of the uncle-red case. -/
def insert_fixup_tail (s : rb_tree_impl) (z : Nat) : Option (rb_tree_impl × Nat) := do
  let zn ← hget s.heap z
  let h1 ← setColour s.heap zn.parent rb_tree_colour.black
  -- z->parent->parent->colour = red (links were not changed by the colour write)
  let zn2 ← hget h1 z
  let pn2 ← hget h1 zn2.parent
  let h2 ← setColour h1 pn2.parent rb_tree_colour.red
  let s2 ← right_rotate { s with heap := h2 } pn2.parent
  some (s2, z)

/-- One iteration of the `while` loop of `rb_tree::insert_fixup` (lines 269-309),
assuming the guard `z->parent->colour == red` already held.  Returns the new
state and the new cursor `z`. -/
def insert_fixup_body (s : rb_tree_impl) (z : Nat) : Option (rb_tree_impl × Nat) := do
  let zn ← hget s.heap z
  let pn ← hget s.heap zn.parent
  let gn ← hget s.heap pn.parent
  if zn.parent = gn.left then do
    -- node* y = z->parent->parent->right
    let yn ← hget s.heap gn.right
    if yn.colour = rb_tree_colour.red then do
      let h1 ← setColour s.heap zn.parent rb_tree_colour.black
      let h2 ← setColour h1 gn.right rb_tree_colour.black
      let h3 ← setColour h2 pn.parent rb_tree_colour.red
      -- z = z->parent->parent, then fall through to lines 286-288
      insert_fixup_tail { s with heap := h3 } pn.parent
    else if z = pn.right then do
      -- z = z->parent; left_rotate(z)
      let s2 ← left_rotate s zn.parent
      insert_fixup_tail s2 zn.parent
    else
      insert_fixup_tail s z
  else do
    -- node* y = z->parent->parent->left
    let yn ← hget s.heap gn.left
    if yn.colour = rb_tree_colour.red then do
      let h1 ← setColour s.heap zn.parent rb_tree_colour.black
      let h2 ← setColour h1 gn.left rb_tree_colour.black
      let h3 ← setColour h2 pn.parent rb_tree_colour.red
      insert_fixup_tail { s with heap := h3 } pn.parent
    else if z = pn.left then do
      -- z = z->parent; left_rotate(z)  (line 303: left_rotate also here)
      let s2 ← left_rotate s zn.parent
      insert_fixup_tail s2 zn.parent
    else
      insert_fixup_tail s z

/-- `rb_tree::insert_fixup(node* z)`, lines 266-311: the guarded loop followed
by `impl.root->colour = black`. -/
def insert_fixup (s : rb_tree_impl) (z : Nat) : Nat → Option rb_tree_impl
  | 0 => none
  | fuel+1 => do
    let zn ← hget s.heap z
    let pn ← hget s.heap zn.parent
    if pn.colour = rb_tree_colour.red then do
      let r ← insert_fixup_body s z
      insert_fixup r.1 r.2 fuel
    else do
      let h ← setColour s.heap s.root rb_tree_colour.black
      some { s with heap := h }

/-- Lines 135-138 of `rb_tree::insert`:
`z->left = impl.end; z->right = impl.end; z->colour = red; insert_fixup(z);`. -/
def insert_finish (s1 : rb_tree_impl) (z : Nat) (fuel : Nat) :
    Option rb_tree_impl := do
  let h3 ← setLeft s1.heap z s1.end_
  let h4 ← setRight h3 z s1.end_
  let h5 ← setColour h4 z rb_tree_colour.red
  insert_fixup { s1 with heap := h5 } z fuel

/-- `rb_tree::insert(node* z)`, lines 104-139.  `z` is the address of an
already-constructed node. -/
def insert (s : rb_tree_impl) (z : Nat) (fuel : Nat) : Option rb_tree_impl := do
  let zn ← hget s.heap z
  let y ← insert_descend s zn.val s.root s.end_ fuel
  -- z->parent = y
  let h1 ← setParent s.heap z y
  if y = s.end_ then
    -- impl.root = z
    insert_finish { s with heap := h1, root := z } z fuel
  else do
    let yn ← hget h1 y
    if zn.val < yn.val then do
      let h2 ← setLeft h1 y z
      insert_finish { s with heap := h2 } z fuel
    else do
      let h2 ← setRight h1 y z
      insert_finish { s with heap := h2 } z fuel

/-- Allocate and construct a fresh node holding `v` (the node constructor sets
parent/left/right to `nullptr` and the colour to black), returning the new
state and the node's address.  This is the `impl.alloc.allocate()` /
`impl.alloc.construct(p, val)` pattern of the source's constructors. -/
def alloc_node (s : rb_tree_impl) (v : Int) : rb_tree_impl × Nat :=
  ({ s with
      heap := s.heap ++ [(s.next, { val := v, parent := nullptr, left := nullptr,
                                    right := nullptr, colour := rb_tree_colour.black })],
      next := s.next + 1 },
   s.next)

/-- Insert a key: allocate+construct a node, then call `rb_tree::insert` on it.
The fuel is ample for the (finite) heap. -/
def insert_key (s : rb_tree_impl) (v : Int) : Option rb_tree_impl :=
  let r := alloc_node s v
  insert r.1 r.2 (r.1.heap.length + 2)

/-- Run a sequence of key insertions from a given state. -/
def run_inserts (s : rb_tree_impl) : List Int → Option rb_tree_impl
  | [] => some s
  | v :: vs => do
    let s1 ← insert_key s v
    run_inserts s1 vs

/-- `rb_tree_node::min(node* nd)`, lines 27-35: `while (nd->left) nd = nd->left`. -/
def node_min (h : Heap) : Nat → Nat → Option Nat
  | _, 0 => none
  | nd, fuel+1 => do
    let n ← hget h nd
    if n.left ≠ nullptr then node_min h n.left fuel else some nd

/-- `rb_tree::transplant(node* x, node* y)`, lines 183-199. -/
def transplant (s : rb_tree_impl) (x y : Nat) : Option rb_tree_impl := do
  let xn ← hget s.heap x
  let s1 ←
    if xn.parent = s.end_ then
      some { s with root := y }
    else do
      let pn ← hget s.heap xn.parent
      if x = pn.left then do
        let h ← setLeft s.heap xn.parent y
        some { s with heap := h }
      else do
        let h ← setRight s.heap xn.parent y
        some { s with heap := h }
  -- y->parent = x->parent (re-read x from the current heap)
  let xn2 ← hget s1.heap x
  let h2 ← setParent s1.heap y xn2.parent
  some { s1 with heap := h2 }

/-- Lines 228-232 (and, mirrored on `y->left`, lines 256-259) of
`rb_tree::remove_fixup`:
`y->colour = x->parent->colour; x->parent->colour = black; y->right->colour = black; left_rotate(x->parent); x = impl.root;`
Executed on every iteration of the loop body: in the source these lines are not
under the `else` of the both-children-black case. -/
def remove_fixup_tail_left (s : rb_tree_impl) (x y : Nat) : Option (rb_tree_impl × Nat) := do
  let xn ← hget s.heap x
  let pn ← hget s.heap xn.parent
  let h1 ← setColour s.heap y pn.colour
  let xn2 ← hget h1 x
  let h2 ← setColour h1 xn2.parent rb_tree_colour.black
  let yn ← hget h2 y
  let h3 ← setColour h2 yn.right rb_tree_colour.black
  let xn3 ← hget h3 x
  let s4 ← left_rotate { s with heap := h3 } xn3.parent
  some (s4, s4.root)

/-- Mirror tail of `remove_fixup` (lines 256-259): as `remove_fixup_tail_left`
but colouring `y->left` black.  The rotation is still `left_rotate` (line 259). -/
def remove_fixup_tail_right (s : rb_tree_impl) (x y : Nat) : Option (rb_tree_impl × Nat) := do
  let xn ← hget s.heap x
  let pn ← hget s.heap xn.parent
  let h1 ← setColour s.heap y pn.colour
  let xn2 ← hget h1 x
  let h2 ← setColour h1 xn2.parent rb_tree_colour.black
  let yn ← hget h2 y
  let h3 ← setColour h2 yn.left rb_tree_colour.black
  let xn3 ← hget h3 x
  let s4 ← left_rotate { s with heap := h3 } xn3.parent
  some (s4, s4.root)

/-- One iteration of the `while` loop of `rb_tree::remove_fixup` (lines 204-262),
assuming the guard `x != impl.end && x->colour == black` already held.
Returns the new state and the new cursor `x`. -/
def remove_fixup_body (s : rb_tree_impl) (x : Nat) : Option (rb_tree_impl × Nat) := do
  let xn ← hget s.heap x
  let pn ← hget s.heap xn.parent
  if x = pn.left then do
    -- node* y = x->parent->right
    let y0 := pn.right
    let yn0 ← hget s.heap y0
    let r1 ←
      if yn0.colour = rb_tree_colour.red then do
        -- y->colour = black; x->parent->colour = red; left_rotate(x->parent); y = x->parent->right
        let h1 ← setColour s.heap y0 rb_tree_colour.black
        let xn1 ← hget h1 x
        let h2 ← setColour h1 xn1.parent rb_tree_colour.red
        let xn2 ← hget h2 x
        let s2 ← left_rotate { s with heap := h2 } xn2.parent
        let xn3 ← hget s2.heap x
        let pn3 ← hget s2.heap xn3.parent
        some (s2, pn3.right)
      else
        some (s, y0)
    let s1 := r1.1
    let y := r1.2
    -- if (y->left->colour == black && y->right->colour == black) ...
    let yn ← hget s1.heap y
    let yln ← hget s1.heap yn.left
    if yln.colour = rb_tree_colour.black then do
      let yrn ← hget s1.heap yn.right
      if yrn.colour = rb_tree_colour.black then do
        -- y->colour = red; x = x->parent, then fall through to lines 228-232
        let h ← setColour s1.heap y rb_tree_colour.red
        let xn4 ← hget h x
        remove_fixup_tail_left { s1 with heap := h } xn4.parent y
      else
        remove_fixup_tail_left s1 x y
    else do
      let yrn ← hget s1.heap yn.right
      if yrn.colour = rb_tree_colour.black then do
        -- y->left->colour = black; y->colour = red; right_rotate(y); y = x->parent->right
        let h1 ← setColour s1.heap yn.left rb_tree_colour.black
        let h2 ← setColour h1 y rb_tree_colour.red
        let s2 ← right_rotate { s1 with heap := h2 } y
        let xn5 ← hget s2.heap x
        let pn5 ← hget s2.heap xn5.parent
        remove_fixup_tail_left s2 x pn5.right
      else
        remove_fixup_tail_left s1 x y
  else do
    -- node* y = x->parent->left
    let y0 := pn.left
    let yn0 ← hget s.heap y0
    let r1 ←
      if yn0.colour = rb_tree_colour.red then do
        -- y->colour = black; x->parent->colour = red; left_rotate(x->parent); y = x->parent->left
        -- (line 241: left_rotate also in this mirrored branch)
        let h1 ← setColour s.heap y0 rb_tree_colour.black
        let xn1 ← hget h1 x
        let h2 ← setColour h1 xn1.parent rb_tree_colour.red
        let xn2 ← hget h2 x
        let s2 ← left_rotate { s with heap := h2 } xn2.parent
        let xn3 ← hget s2.heap x
        let pn3 ← hget s2.heap xn3.parent
        some (s2, pn3.left)
      else
        some (s, y0)
    let s1 := r1.1
    let y := r1.2
    -- if (y->right->colour == black && y->left->colour == black) ...
    let yn ← hget s1.heap y
    let yrn ← hget s1.heap yn.right
    if yrn.colour = rb_tree_colour.black then do
      let yln ← hget s1.heap yn.left
      if yln.colour = rb_tree_colour.black then do
        let h ← setColour s1.heap y rb_tree_colour.red
        let xn4 ← hget h x
        remove_fixup_tail_right { s1 with heap := h } xn4.parent y
      else
        remove_fixup_tail_right s1 x y
    else do
      let yln ← hget s1.heap yn.left
      if yln.colour = rb_tree_colour.black then do
        -- y->right->colour = black; y->colour = red; right_rotate(y); y = x->parent->left
        let h1 ← setColour s1.heap yn.right rb_tree_colour.black
        let h2 ← setColour h1 y rb_tree_colour.red
        let s2 ← right_rotate { s1 with heap := h2 } y
        let xn5 ← hget s2.heap x
        let pn5 ← hget s2.heap xn5.parent
        remove_fixup_tail_right s2 x pn5.left
      else
        remove_fixup_tail_right s1 x y

/-- `rb_tree::remove_fixup(node* x)`, lines 201-264: the guarded loop followed
by `x->colour = black` (which dereferences `x` even when `x == impl.end`). -/
def remove_fixup (s : rb_tree_impl) (x : Nat) : Nat → Option rb_tree_impl
  | 0 => none
  | fuel+1 =>
    if x ≠ s.end_ then do
      let xn ← hget s.heap x
      if xn.colour = rb_tree_colour.black then do
        let r ← remove_fixup_body s x
        remove_fixup r.1 r.2 fuel
      else do
        let h ← setColour s.heap x rb_tree_colour.black
        some { s with heap := h }
    else do
      let h ← setColour s.heap x rb_tree_colour.black
      some { s with heap := h }

/-- `rb_tree::remove(node* z)`, lines 141-181. -/
def remove (s : rb_tree_impl) (z : Nat) (fuel : Nat) : Option rb_tree_impl := do
  let zn ← hget s.heap z
  if zn.left = s.end_ then do
    -- x = z->right; transplant(z, z->right)
    let x := zn.right
    let s1 ← transplant s z zn.right
    if zn.colour = rb_tree_colour.black then remove_fixup s1 x fuel else some s1
  else if zn.right = s.end_ then do
    let x := zn.left
    let s1 ← transplant s z zn.left
    if zn.colour = rb_tree_colour.black then remove_fixup s1 x fuel else some s1
  else do
    -- y = impl.root->min(z->right); y_temp = y->colour; x = y->right
    let y ← node_min s.heap zn.right fuel
    let yn ← hget s.heap y
    let y_temp := yn.colour
    let x := yn.right
    let s1 ←
      if yn.parent = z then do
        -- x->parent = y
        let h ← setParent s.heap x y
        some { s with heap := h }
      else do
        let s2 ← transplant s y yn.right
        -- y->right = z->right; y->right->parent = y
        let zn2 ← hget s2.heap z
        let h ← setRight s2.heap y zn2.right
        let yn2 ← hget h y
        let h2 ← setParent h yn2.right y
        some { s2 with heap := h2 }
    let s3 ← transplant s1 z y
    -- y->left = z->left; y->left->parent = y; y->colour = z->colour
    let zn3 ← hget s3.heap z
    let h3 ← setLeft s3.heap y zn3.left
    let yn3 ← hget h3 y
    let h4 ← setParent h3 yn3.left y
    let zn4 ← hget h4 z
    let h5 ← setColour h4 y zn4.colour
    let s4 := { s3 with heap := h5 }
    if y_temp = rb_tree_colour.black then remove_fixup s4 x fuel else some s4

/-- The right-subtree descent of `iterator::operator++` (lines 433-440):
`nd = nd->right; while (nd->left) nd = nd->left;` — the loop part, started at
the right child. -/
def iter_descend (h : Heap) : Nat → Nat → Option Nat
  | _, 0 => none
  | nd, fuel+1 => do
    let n ← hget h nd
    if n.left ≠ nullptr then iter_descend h n.left fuel else some nd

/-- The parent climb of `iterator::operator++` (lines 441-450):
`node* p = nd->parent; while (p && nd == p->right) { nd = p; p = p->parent; } nd = p;`
returning the final `nd`. -/
def iter_climb (h : Heap) : Nat → Nat → Nat → Option Nat
  | _, _, 0 => none
  | nd, p, fuel+1 =>
    if p ≠ nullptr then do
      let pn ← hget h p
      if nd = pn.right then iter_climb h p pn.parent fuel else some p
    else
      some p

/-- `iterator::operator++`, lines 430-452: the in-order step on the node
pointer held by the iterator. -/
def iter_incr (h : Heap) (nd : Nat) (fuel : Nat) : Option Nat := do
  let n ← hget h nd
  if n.right ≠ nullptr then iter_descend h n.right fuel
  else iter_climb h nd n.parent fuel

/-- `iterator::operator--`, lines 454-459: the body is `// TODO` and
`return *this`, so the node pointer is returned unchanged. -/
def iter_decr (_h : Heap) (nd : Nat) : Nat := nd

/-- `rb_tree::empty()`, lines 372-376: `impl.begin == impl.end`. -/
def tree_empty (s : rb_tree_impl) : Bool := s.begin_ == s.end_

/-- `rb_tree::begin()`, lines 378-382: the node pointer of the returned iterator. -/
def tree_begin (s : rb_tree_impl) : Nat := s.begin_

/-- `rb_tree::end()`, lines 384-388: the node pointer of the returned iterator. -/
def tree_end (s : rb_tree_impl) : Nat := s.end_

/-! ## Abstraction: heaps representing binary trees

`repr_ok h p par t` says that the pointer structure reachable from `p` in `h`
lays out the inductive binary tree `t`, with correct parent back-links, `par`
being `p`'s parent and `0` (the null pointer, which is also `impl.end` in every
tree this code builds) terminating the leaves.  `ptrs` lists the addresses in
in-order, `vals` the keys in in-order. -/

/-- Inductive binary trees with `Int` keys. -/
inductive btree where
  | leaf
  | node (l : btree) (v : Int) (r : btree)
deriving DecidableEq, Repr

/-- `t` is laid out in `h` at address `p`, whose parent field is `par`. -/
def repr_ok (h : Heap) : Nat → Nat → btree → Bool
  | p, _, btree.leaf => p == nullptr
  | p, par, btree.node l v r =>
    p != nullptr &&
      match hget h p with
      | none => false
      | some n =>
        n.val == v && n.parent == par &&
          repr_ok h n.left p l && repr_ok h n.right p r

/-- The addresses of the nodes of `t` (as laid out at `p` in `h`), in-order. -/
def ptrs (h : Heap) : Nat → btree → List Nat
  | _, btree.leaf => []
  | p, btree.node l _ r =>
    match hget h p with
    | none => []
    | some n => ptrs h n.left l ++ p :: ptrs h n.right r

/-- The keys of `t`, in-order. -/
def vals : btree → List Int
  | btree.leaf => []
  | btree.node l v r => vals l ++ v :: vals r

/-- Number of nodes of `t`. -/
def bsize : btree → Nat
  | btree.leaf => 0
  | btree.node l _ r => bsize l + bsize r + 1

/-! ## Spec-modelled operations

The repository's `rb_tree` exposes no find-by-key and no erase-by-key (its
`remove` takes a node pointer); the spec describes both.  The following
definitions model the missing operations from the spec's words. -/

/-- Modelled from the spec: `find(key)`: "standard BST descent by comparator;
returns an iterator to the match or the end iterator" (spec section 4.5).  The
source has no find-by-key member. -/
def find_ptr (s : rb_tree_impl) (k : Int) : Nat → Nat → Option Nat
  | _, 0 => none
  | p, fuel+1 =>
    if p = s.end_ then some s.end_
    else
      match hget s.heap p with
      | none => none
      | some n =>
        if k < n.val then find_ptr s k n.left fuel
        else if n.val < k then find_ptr s k n.right fuel
        else some p

/-- Result of erase-by-key, from the spec's error taxonomy (section 7):
`NotFound` versus a successful erase. -/
inductive erase_result where
  | erased
  | notFound
deriving DecidableEq, Repr

/-- Modelled from the spec: erase(key): "Locate the node z (fails with NotFound
if absent)" (spec section 4.2); on a hit run the source's `remove` on the found
node.  The source has no erase-by-key member; its `remove` takes a node
pointer. -/
def erase_by_key (s : rb_tree_impl) (k : Int) (fuel : Nat) :
    Option (erase_result × rb_tree_impl) := do
  let p ← find_ptr s k s.root fuel
  if p = s.end_ then
    some (erase_result.notFound, s)
  else do
    let s1 ← remove s p fuel
    some (erase_result.erased, s1)

/-! ## Claim-side step definitions (for refinement comparison)

The next definitions follow the words of the spec/claims, not the source; they
exist only to be compared against the source-translated steps above. -/

/-- Modelled from the spec (section 4.3): a correct right rotation — the exact
mirror of the source's `left_rotate`, testing the rotated node's *parent*
against `impl.end` before updating `impl.root`. -/
def rotate_right_spec (s : rb_tree_impl) (y : Nat) : Option rb_tree_impl := do
  let yn ← hget s.heap y
  if yn.left ≠ s.end_ then do
    let x := yn.left
    let xn ← hget s.heap x
    let h1 ← setLeft s.heap y xn.right
    let h2 ← if xn.right ≠ s.end_ then setParent h1 xn.right y else some h1
    let yn2 ← hget h2 y
    let h3 ← setParent h2 x yn2.parent
    let s4 ←
      if yn2.parent = s.end_ then
        some { s with heap := h3, root := x }
      else do
        let pn ← hget h3 yn2.parent
        if y = pn.left then do
          let h4 ← setLeft h3 yn2.parent x
          some { s with heap := h4 }
        else do
          let h4 ← setRight h3 yn2.parent x
          some { s with heap := h4 }
    let h5 ← setRight s4.heap x y
    let h6 ← setParent h5 y x
    some { s4 with heap := h6 }
  else
    some s

/-- The insert-fixup uncle-red step as the claim states it: recolour the parent
and the uncle black and the grandparent red, move the cursor to the
grandparent, nothing else. -/
def insert_fixup_uncle_red_claim (s : rb_tree_impl) (z : Nat) :
    Option (rb_tree_impl × Nat) := do
  let zn ← hget s.heap z
  let pn ← hget s.heap zn.parent
  let gn ← hget s.heap pn.parent
  let y := if zn.parent = gn.left then gn.right else gn.left
  let h1 ← setColour s.heap zn.parent rb_tree_colour.black
  let h2 ← setColour h1 y rb_tree_colour.black
  let h3 ← setColour h2 pn.parent rb_tree_colour.red
  some ({ s with heap := h3 }, pn.parent)

/-- The erase-fixup sibling-red step as the claim states it: recolour the
sibling black and the parent red, rotate the parent toward the cursor's side
(left rotation for a left-child cursor, right rotation for a right-child
cursor), recompute the sibling. -/
def erase_fixup_sibling_red_claim (s : rb_tree_impl) (x : Nat) :
    Option (rb_tree_impl × Nat) := do
  let xn ← hget s.heap x
  let pn ← hget s.heap xn.parent
  let y := if x = pn.left then pn.right else pn.left
  let h1 ← setColour s.heap y rb_tree_colour.black
  let h2 ← setColour h1 xn.parent rb_tree_colour.red
  let s2 ←
    if x = pn.left then left_rotate { s with heap := h2 } xn.parent
    else rotate_right_spec { s with heap := h2 } xn.parent
  let xn2 ← hget s2.heap x
  let pn2 ← hget s2.heap xn2.parent
  some (s2, if x = pn2.left then pn2.right else pn2.left)

/-! ## Concrete states used as counterexample inputs -/

/-- Build a node record. -/
def mk_node (v : Int) (par l r : Nat) (c : rb_tree_colour) : rb_tree_node :=
  { val := v, parent := par, left := l, right := r, colour := c }

/-- A tree state entering `insert_fixup` with a red uncle: black left-spine
`1-2-3-4`, grandparent `4` with red children `5` (parent of the cursor) and `6`
(the uncle), red cursor `7` below `5`. -/
def sC3 : rb_tree_impl :=
  { heap := [(1, mk_node 80 0 2 0 rb_tree_colour.black),
             (2, mk_node 70 1 3 0 rb_tree_colour.black),
             (3, mk_node 60 2 4 0 rb_tree_colour.black),
             (4, mk_node 40 3 5 6 rb_tree_colour.black),
             (5, mk_node 20 4 7 0 rb_tree_colour.red),
             (6, mk_node 50 4 0 0 rb_tree_colour.red),
             (7, mk_node 10 5 0 0 rb_tree_colour.red)],
    root := 1, begin_ := 0, end_ := 0, next := 8 }

/-- A tree state entering `remove_fixup` with the cursor a right child and a
red sibling: root `1`, parent `2` with sibling `3` (red, left child) and
cursor `4` (black, right child), grandchildren `5`-`8` black. -/
def sC4 : rb_tree_impl :=
  { heap := [(1, mk_node 100 0 2 0 rb_tree_colour.black),
             (2, mk_node 40 1 3 4 rb_tree_colour.black),
             (3, mk_node 20 2 5 6 rb_tree_colour.red),
             (4, mk_node 60 2 7 8 rb_tree_colour.black),
             (5, mk_node 10 3 0 0 rb_tree_colour.black),
             (6, mk_node 30 3 0 0 rb_tree_colour.black),
             (7, mk_node 50 4 0 0 rb_tree_colour.black),
             (8, mk_node 70 4 0 0 rb_tree_colour.black)],
    root := 1, begin_ := 0, end_ := 0, next := 9 }

/-- A two-node tree: root `1` with left child `2`. -/
def sC5 : rb_tree_impl :=
  { heap := [(1, mk_node 2 0 2 0 rb_tree_colour.black),
             (2, mk_node 1 1 0 0 rb_tree_colour.red)],
    root := 1, begin_ := 0, end_ := 0, next := 3 }

/-- A well-formed three-node tree used as a concrete witness: root `1` holds
`20`, left child `2` holds `10`, right child `3` holds `30`. -/
def hW : Heap :=
  [(1, mk_node 20 0 2 3 rb_tree_colour.black),
   (2, mk_node 10 1 0 0 rb_tree_colour.red),
   (3, mk_node 30 1 0 0 rb_tree_colour.red)]

/-- The abstraction of `hW`. -/
def tW : btree :=
  btree.node (btree.node btree.leaf 10 btree.leaf) 20 (btree.node btree.leaf 30 btree.leaf)

/-- The tree state around `hW`. -/
def sW : rb_tree_impl :=
  { heap := hW, root := 1, begin_ := 2, end_ := 0, next := 4 }

/-! ## Frame lemmas: the insertion path never writes `impl.begin` or `impl.end` -/

theorem left_rotate_finish_frame {s4 s' : rb_tree_impl} {x y : Nat}
    (hr : left_rotate_finish s4 x y = some s') :
    s'.begin_ = s4.begin_ ∧ s'.end_ = s4.end_ := by
  unfold left_rotate_finish at hr
  obtain ⟨h5, _, hr⟩ := Option.bind_eq_some.mp hr
  obtain ⟨h6, _, hr⟩ := Option.bind_eq_some.mp hr
  injection hr with hr
  subst hr
  exact ⟨rfl, rfl⟩

theorem left_rotate_link_frame {s s' : rb_tree_impl} {h2 : Heap} {x y : Nat}
    (hr : left_rotate_link s h2 x y = some s') :
    s'.begin_ = s.begin_ ∧ s'.end_ = s.end_ := by
  unfold left_rotate_link at hr
  obtain ⟨xn2, _, hr⟩ := Option.bind_eq_some.mp hr
  obtain ⟨h3, _, hr⟩ := Option.bind_eq_some.mp hr
  split at hr
  · have hfin := left_rotate_finish_frame hr
    exact hfin
  · obtain ⟨pn, _, hr⟩ := Option.bind_eq_some.mp hr
    split at hr
    · obtain ⟨h4, _, hr⟩ := Option.bind_eq_some.mp hr
      have hfin := left_rotate_finish_frame hr
      exact hfin
    · obtain ⟨h4, _, hr⟩ := Option.bind_eq_some.mp hr
      have hfin := left_rotate_finish_frame hr
      exact hfin

theorem left_rotate_frame {s s' : rb_tree_impl} {x : Nat}
    (hr : left_rotate s x = some s') :
    s'.begin_ = s.begin_ ∧ s'.end_ = s.end_ := by
  unfold left_rotate at hr
  obtain ⟨xn, _, hr⟩ := Option.bind_eq_some.mp hr
  split at hr
  · obtain ⟨yn, _, hr⟩ := Option.bind_eq_some.mp hr
    obtain ⟨h1, _, hr⟩ := Option.bind_eq_some.mp hr
    split at hr
    · obtain ⟨h2, _, hr⟩ := Option.bind_eq_some.mp hr
      exact left_rotate_link_frame hr
    · exact left_rotate_link_frame hr
  · injection hr with hr
    subst hr
    exact ⟨rfl, rfl⟩

theorem right_rotate_finish_frame {s4 s' : rb_tree_impl} {y x : Nat}
    (hr : right_rotate_finish s4 y x = some s') :
    s'.begin_ = s4.begin_ ∧ s'.end_ = s4.end_ := by
  unfold right_rotate_finish at hr
  obtain ⟨h5, _, hr⟩ := Option.bind_eq_some.mp hr
  obtain ⟨h6, _, hr⟩ := Option.bind_eq_some.mp hr
  injection hr with hr
  subst hr
  exact ⟨rfl, rfl⟩

theorem right_rotate_link_frame {s s' : rb_tree_impl} {h2 : Heap} {y x : Nat}
    (hr : right_rotate_link s h2 y x = some s') :
    s'.begin_ = s.begin_ ∧ s'.end_ = s.end_ := by
  unfold right_rotate_link at hr
  obtain ⟨yn2, _, hr⟩ := Option.bind_eq_some.mp hr
  obtain ⟨h3, _, hr⟩ := Option.bind_eq_some.mp hr
  split at hr
  · have hfin := right_rotate_finish_frame hr
    exact hfin
  · obtain ⟨pn, _, hr⟩ := Option.bind_eq_some.mp hr
    split at hr
    · obtain ⟨h4, _, hr⟩ := Option.bind_eq_some.mp hr
      have hfin := right_rotate_finish_frame hr
      exact hfin
    · obtain ⟨h4, _, hr⟩ := Option.bind_eq_some.mp hr
      have hfin := right_rotate_finish_frame hr
      exact hfin

theorem right_rotate_frame {s s' : rb_tree_impl} {y : Nat}
    (hr : right_rotate s y = some s') :
    s'.begin_ = s.begin_ ∧ s'.end_ = s.end_ := by
  unfold right_rotate at hr
  obtain ⟨yn, _, hr⟩ := Option.bind_eq_some.mp hr
  split at hr
  · obtain ⟨xn, _, hr⟩ := Option.bind_eq_some.mp hr
    obtain ⟨h1, _, hr⟩ := Option.bind_eq_some.mp hr
    split at hr
    · obtain ⟨h2, _, hr⟩ := Option.bind_eq_some.mp hr
      exact right_rotate_link_frame hr
    · exact right_rotate_link_frame hr
  · injection hr with hr
    subst hr
    exact ⟨rfl, rfl⟩

theorem insert_fixup_tail_frame {s : rb_tree_impl} {z : Nat}
    {r : rb_tree_impl × Nat} (hr : insert_fixup_tail s z = some r) :
    r.1.begin_ = s.begin_ ∧ r.1.end_ = s.end_ := by
  unfold insert_fixup_tail at hr
  obtain ⟨zn, _, hr⟩ := Option.bind_eq_some.mp hr
  obtain ⟨h1, _, hr⟩ := Option.bind_eq_some.mp hr
  obtain ⟨zn2, _, hr⟩ := Option.bind_eq_some.mp hr
  obtain ⟨pn2, _, hr⟩ := Option.bind_eq_some.mp hr
  obtain ⟨h2, _, hr⟩ := Option.bind_eq_some.mp hr
  obtain ⟨s2, hs2, hr⟩ := Option.bind_eq_some.mp hr
  injection hr with hr
  subst hr
  have hfin := right_rotate_frame hs2
  exact hfin

theorem insert_fixup_body_frame {s : rb_tree_impl} {z : Nat}
    {r : rb_tree_impl × Nat} (hr : insert_fixup_body s z = some r) :
    r.1.begin_ = s.begin_ ∧ r.1.end_ = s.end_ := by
  unfold insert_fixup_body at hr
  obtain ⟨zn, _, hr⟩ := Option.bind_eq_some.mp hr
  obtain ⟨pn, _, hr⟩ := Option.bind_eq_some.mp hr
  obtain ⟨gn, _, hr⟩ := Option.bind_eq_some.mp hr
  split at hr
  · obtain ⟨yn, _, hr⟩ := Option.bind_eq_some.mp hr
    split at hr
    · obtain ⟨h1, _, hr⟩ := Option.bind_eq_some.mp hr
      obtain ⟨h2, _, hr⟩ := Option.bind_eq_some.mp hr
      obtain ⟨h3, _, hr⟩ := Option.bind_eq_some.mp hr
      have hfin := insert_fixup_tail_frame hr
      exact hfin
    · split at hr
      · obtain ⟨s2, hs2, hr⟩ := Option.bind_eq_some.mp hr
        have ha := left_rotate_frame hs2
        have hb := insert_fixup_tail_frame hr
        exact ⟨hb.1.trans ha.1, hb.2.trans ha.2⟩
      · exact insert_fixup_tail_frame hr
  · obtain ⟨yn, _, hr⟩ := Option.bind_eq_some.mp hr
    split at hr
    · obtain ⟨h1, _, hr⟩ := Option.bind_eq_some.mp hr
      obtain ⟨h2, _, hr⟩ := Option.bind_eq_some.mp hr
      obtain ⟨h3, _, hr⟩ := Option.bind_eq_some.mp hr
      have hfin := insert_fixup_tail_frame hr
      exact hfin
    · split at hr
      · obtain ⟨s2, hs2, hr⟩ := Option.bind_eq_some.mp hr
        have ha := left_rotate_frame hs2
        have hb := insert_fixup_tail_frame hr
        exact ⟨hb.1.trans ha.1, hb.2.trans ha.2⟩
      · exact insert_fixup_tail_frame hr

theorem insert_fixup_frame : ∀ (fuel : Nat) (s : rb_tree_impl) (z : Nat)
    (s' : rb_tree_impl), insert_fixup s z fuel = some s' →
    s'.begin_ = s.begin_ ∧ s'.end_ = s.end_ := by
  intro fuel
  induction fuel with
  | zero =>
    intro s z s' hr
    exact Option.noConfusion hr
  | succ n ih =>
    intro s z s' hr
    unfold insert_fixup at hr
    obtain ⟨zn, _, hr⟩ := Option.bind_eq_some.mp hr
    obtain ⟨pn, _, hr⟩ := Option.bind_eq_some.mp hr
    split at hr
    · obtain ⟨r, hb, hr⟩ := Option.bind_eq_some.mp hr
      have ha := insert_fixup_body_frame hb
      have hc := ih r.1 r.2 s' hr
      exact ⟨hc.1.trans ha.1, hc.2.trans ha.2⟩
    · obtain ⟨h, _, hr⟩ := Option.bind_eq_some.mp hr
      injection hr with hr
      subst hr
      exact ⟨rfl, rfl⟩

theorem insert_finish_frame {s1 s' : rb_tree_impl} {z fuel : Nat}
    (hr : insert_finish s1 z fuel = some s') :
    s'.begin_ = s1.begin_ ∧ s'.end_ = s1.end_ := by
  unfold insert_finish at hr
  obtain ⟨h3, _, hr⟩ := Option.bind_eq_some.mp hr
  obtain ⟨h4, _, hr⟩ := Option.bind_eq_some.mp hr
  obtain ⟨h5, _, hr⟩ := Option.bind_eq_some.mp hr
  have hfin := insert_fixup_frame fuel _ z s' hr
  exact hfin

theorem insert_frame {s s' : rb_tree_impl} {z fuel : Nat}
    (hr : insert s z fuel = some s') :
    s'.begin_ = s.begin_ ∧ s'.end_ = s.end_ := by
  unfold insert at hr
  obtain ⟨zn, _, hr⟩ := Option.bind_eq_some.mp hr
  obtain ⟨y, _, hr⟩ := Option.bind_eq_some.mp hr
  obtain ⟨h1, _, hr⟩ := Option.bind_eq_some.mp hr
  split at hr
  · have hfin := insert_finish_frame hr
    exact hfin
  · obtain ⟨yn, _, hr⟩ := Option.bind_eq_some.mp hr
    split at hr
    · obtain ⟨h2, _, hr⟩ := Option.bind_eq_some.mp hr
      have hfin := insert_finish_frame hr
      exact hfin
    · obtain ⟨h2, _, hr⟩ := Option.bind_eq_some.mp hr
      have hfin := insert_finish_frame hr
      exact hfin

theorem insert_key_frame {s s' : rb_tree_impl} {v : Int}
    (hr : insert_key s v = some s') :
    s'.begin_ = s.begin_ ∧ s'.end_ = s.end_ := by
  unfold insert_key at hr
  have hfin := insert_frame hr
  exact hfin

theorem run_inserts_frame : ∀ (vs : List Int) (s s' : rb_tree_impl),
    run_inserts s vs = some s' → s'.begin_ = s.begin_ ∧ s'.end_ = s.end_ := by
  intro vs
  induction vs with
  | nil =>
    intro s s' hr
    unfold run_inserts at hr
    injection hr with hr
    subst hr
    exact ⟨rfl, rfl⟩
  | cons v vs ih =>
    intro s s' hr
    unfold run_inserts at hr
    obtain ⟨s1, h1, hr⟩ := Option.bind_eq_some.mp hr
    have ha := insert_key_frame h1
    have hb := ih s1 s' hr
    exact ⟨hb.1.trans ha.1, hb.2.trans ha.2⟩

end cudlb

namespace cudlb

/-! ## The iterator increment computes the in-order successor

The next section proves that on any heap laying out a binary tree (null
leaf pointers, correct parent links, no address repeated), `operator++`
started at the `i`-th in-order node reaches the `(i+1)`-th, and started at the
last one reaches the null pointer, which is `impl.end` of every tree this
code builds. -/

/-- The right-subtree descent terminates at `q` for some fuel. -/
def DescendsTo (h : Heap) (nd q : Nat) : Prop :=
  ∃ fuel, iter_descend h nd fuel = some q

/-- The parent climb from `nd` (whose parent field is `p`) terminates at `q`
for some fuel. -/
def ClimbsTo (h : Heap) (nd p q : Nat) : Prop :=
  ∃ fuel, iter_climb h nd p fuel = some q

/-- `operator++` started at `nd` terminates at `q` for some fuel. -/
def IncrTo (h : Heap) (nd q : Nat) : Prop :=
  ∃ fuel, iter_incr h nd fuel = some q

theorem iter_descend_base {h : Heap} {nd : Nat} {n : rb_tree_node}
    (hn : hget h nd = some n) (hl : n.left = nullptr) : DescendsTo h nd nd :=
  ⟨1, by simp [iter_descend, hn, hl]⟩

theorem iter_descend_step {h : Heap} {nd q : Nat} {n : rb_tree_node}
    (hn : hget h nd = some n) (hl : n.left ≠ nullptr)
    (hd : DescendsTo h n.left q) : DescendsTo h nd q := by
  obtain ⟨f, hf⟩ := hd
  exact ⟨f + 1, by simp [iter_descend, hn, hl, hf]⟩

theorem iter_climb_exit_null (h : Heap) (nd : Nat) :
    ClimbsTo h nd nullptr nullptr :=
  ⟨1, by simp [iter_climb, nullptr]⟩

theorem iter_climb_exit {h : Heap} {nd p : Nat} {pn : rb_tree_node}
    (hp : p ≠ nullptr) (hn : hget h p = some pn) (hne : nd ≠ pn.right) :
    ClimbsTo h nd p p :=
  ⟨1, by simp [iter_climb, hp, hn, hne]⟩

theorem iter_climb_step {h : Heap} {nd p q : Nat} {pn : rb_tree_node}
    (hp : p ≠ nullptr) (hn : hget h p = some pn) (heq : nd = pn.right)
    (hc : ClimbsTo h p pn.parent q) : ClimbsTo h nd p q := by
  obtain ⟨f, hf⟩ := hc
  exact ⟨f + 1, by simp [iter_climb, hp, hn, heq, hf]⟩

theorem iter_incr_right {h : Heap} {nd q : Nat} {n : rb_tree_node}
    (hn : hget h nd = some n) (hr : n.right ≠ nullptr)
    (hd : DescendsTo h n.right q) : IncrTo h nd q := by
  obtain ⟨f, hf⟩ := hd
  exact ⟨f, by simp [iter_incr, hn, hr, hf]⟩

theorem iter_incr_climb {h : Heap} {nd q : Nat} {n : rb_tree_node}
    (hn : hget h nd = some n) (hr : n.right = nullptr)
    (hc : ClimbsTo h nd n.parent q) : IncrTo h nd q := by
  obtain ⟨f, hf⟩ := hc
  exact ⟨f, by simp [iter_incr, hn, hr, hf]⟩

theorem repr_ok_leaf {h : Heap} {p par : Nat}
    (hk : repr_ok h p par btree.leaf = true) : p = nullptr := by
  simpa [repr_ok] using hk

theorem repr_ok_node {h : Heap} {p par : Nat} {l : btree} {v : Int} {r : btree}
    (hk : repr_ok h p par (btree.node l v r) = true) :
    ∃ n, hget h p = some n ∧ p ≠ nullptr ∧ n.val = v ∧ n.parent = par ∧
      repr_ok h n.left p l = true ∧ repr_ok h n.right p r = true := by
  unfold repr_ok at hk
  cases hn : hget h p with
  | none =>
    rw [hn] at hk
    simp at hk
  | some n =>
    rw [hn] at hk
    simp only [Bool.and_eq_true, bne_iff_ne, ne_eq, beq_iff_eq] at hk
    refine ⟨n, rfl, ?_, ?_, ?_, ?_, ?_⟩ <;> tauto

theorem ptrs_node {h : Heap} {p : Nat} {l : btree} {v : Int} {r : btree}
    {n : rb_tree_node} (hn : hget h p = some n) :
    ptrs h p (btree.node l v r) = ptrs h n.left l ++ p :: ptrs h n.right r := by
  simp [ptrs, hn]

theorem self_mem_ptrs {h : Heap} {p par : Nat} {t : btree}
    (hk : repr_ok h p par t = true) (ht : t ≠ btree.leaf) : p ∈ ptrs h p t := by
  cases t with
  | leaf => exact absurd rfl ht
  | node l v r =>
    obtain ⟨n, hn, -⟩ := repr_ok_node hk
    rw [ptrs_node hn]
    simp

/-- The descent of `operator++` started at the root of a laid-out subtree
reaches its first in-order node. -/
theorem descend_to_head : ∀ (t : btree) {h : Heap} {p par : Nat},
    repr_ok h p par t = true → t ≠ btree.leaf →
    ∃ q, (ptrs h p t).head? = some q ∧ DescendsTo h p q := by
  intro t
  induction t with
  | leaf =>
    intro h p par _ ht
    exact absurd rfl ht
  | node l v r ihl ihr =>
    intro h p par hk _
    obtain ⟨n, hn, hp0, hv, hpar, hl, hr⟩ := repr_ok_node hk
    rw [ptrs_node hn]
    cases l with
    | leaf =>
      refine ⟨p, ?_, iter_descend_base hn (repr_ok_leaf hl)⟩
      simp [ptrs]
    | node ll lv lr =>
      obtain ⟨q, hq, hd⟩ := ihl hl (by simp)
      have hnl : n.left ≠ nullptr := by
        obtain ⟨m, hm, hm0, -⟩ := repr_ok_node hl
        exact hm0
      have hne : ptrs h n.left (btree.node ll lv lr) ≠ [] := by
        intro hE
        rw [hE] at hq
        exact Option.noConfusion hq
      refine ⟨q, ?_, iter_descend_step hn hnl hd⟩
      rw [List.head?_append_of_ne_nil _ hne]
      exact hq

/-- The climb of `operator++` started at the last in-order node of a laid-out
subtree continues exactly as the climb started at the subtree's root: the
last node has a null right child and its parent chain inside the subtree is
all right-child links. -/
theorem climb_from_last : ∀ (t : btree) {h : Heap} {p par q : Nat},
    repr_ok h p par t = true → t ≠ btree.leaf → ClimbsTo h p par q →
    ∃ x xn, (ptrs h p t).getLast? = some x ∧ hget h x = some xn ∧
      xn.right = nullptr ∧ ClimbsTo h x xn.parent q := by
  intro t
  induction t with
  | leaf =>
    intro h p par q _ ht _
    exact absurd rfl ht
  | node l v r ihl ihr =>
    intro h p par q hk _ hc
    obtain ⟨n, hn, hp0, hv, hpar, hl, hr⟩ := repr_ok_node hk
    rw [ptrs_node hn]
    cases r with
    | leaf =>
      refine ⟨p, n, ?_, hn, repr_ok_leaf hr, ?_⟩
      · rw [List.getLast?_append_cons]
        simp [ptrs]
      · rw [hpar]
        exact hc
    | node rl rv rr =>
      have hstep : ClimbsTo h n.right p q := by
        refine iter_climb_step hp0 hn rfl ?_
        rw [hpar]
        exact hc
      obtain ⟨x, xn, hlast, hx, hxr, hcl⟩ := ihr hr (by simp) hstep
      have hne : ptrs h n.right (btree.node rl rv rr) ≠ [] := by
        intro hE
        rw [hE] at hlast
        exact Option.noConfusion hlast
      refine ⟨x, xn, ?_, hx, hxr, hcl⟩
      rw [List.getLast?_append_cons]
      have h2 := List.getLast?_append_of_ne_nil [p] hne
      simpa using h2.trans hlast

/-- Main induction: inside a laid-out subtree, `operator++` takes the `i`-th
in-order node to the `(i+1)`-th. -/
theorem incr_internal : ∀ (t : btree) {h : Heap} {p par a b : Nat},
    repr_ok h p par t = true → (ptrs h p t).Nodup →
    ∀ i : Nat, (ptrs h p t)[i]? = some a → (ptrs h p t)[i + 1]? = some b →
    IncrTo h a b := by
  intro t
  induction t with
  | leaf =>
    intro h p par a b _ _ i ha _
    simp [ptrs] at ha
  | node l v r ihl ihr =>
    intro h p par a b hk hnd i ha hb
    obtain ⟨n, hn, hp0, hv, hpar, hl, hr⟩ := repr_ok_node hk
    rw [ptrs_node hn] at hnd ha hb
    rw [List.nodup_append] at hnd
    obtain ⟨hndA, hndPB, hdisj⟩ := hnd
    rcases Nat.lt_trichotomy (i + 1) (ptrs h n.left l).length with hlt | heq | hgt
    · -- both positions are inside the left subtree
      rw [List.getElem?_append_left hlt] at hb
      rw [List.getElem?_append_left (Nat.lt_of_succ_lt hlt)] at ha
      exact ihl hl hndA i ha hb
    · -- `i` is the last position of the left subtree; the successor is `p`
      have hbp : p = b := by
        rw [List.getElem?_append_right (by omega)] at hb
        have h0 : i + 1 - (ptrs h n.left l).length = 0 := by omega
        rw [h0] at hb
        simpa using hb
      have hlne : l ≠ btree.leaf := by
        intro hE
        rw [hE] at heq
        simp [ptrs] at heq
      have hne_lr : n.left ≠ n.right := by
        cases r with
        | leaf =>
          have h0 : n.right = nullptr := repr_ok_leaf hr
          have h1 : n.left ≠ nullptr := by
            cases l with
            | leaf => exact absurd rfl hlne
            | node _ _ _ =>
              obtain ⟨m, _, hm0, -⟩ := repr_ok_node hl
              exact hm0
          rw [h0]
          exact h1
        | node rl rv rr =>
          have hmem : n.right ∈ p :: ptrs h n.right (btree.node rl rv rr) :=
            List.mem_cons_of_mem _ (self_mem_ptrs hr (by simp))
          intro hE
          exact (hdisj (self_mem_ptrs hl hlne)) (hE ▸ hmem)
      obtain ⟨x, xn, hlast, hx, hxr, hcl⟩ :=
        climb_from_last l hl hlne (iter_climb_exit hp0 hn hne_lr)
      have hax : a = x := by
        rw [List.getElem?_append_left (show i < (ptrs h n.left l).length by omega)] at ha
        rw [List.getLast?_eq_getElem?] at hlast
        have hidx : (ptrs h n.left l).length - 1 = i := by omega
        rw [hidx] at hlast
        injection ha.symm.trans hlast
      rw [hax, ← hbp]
      exact iter_incr_climb hx hxr hcl
    · -- `i` is at or after `p`'s position
      have hAle : (ptrs h n.left l).length ≤ i := by omega
      rw [List.getElem?_append_right hAle] at ha
      rw [List.getElem?_append_right (by omega)] at hb
      rcases Nat.eq_or_lt_of_le hAle with heqA | hltA
      · -- `i` is `p`'s position; the successor is the head of the right subtree
        have hap : p = a := by
          have h0 : i - (ptrs h n.left l).length = 0 := by omega
          rw [h0] at ha
          simpa using ha
        have h1 : i + 1 - (ptrs h n.left l).length = 1 := by omega
        rw [h1, List.getElem?_cons_succ] at hb
        have hrne : r ≠ btree.leaf := by
          intro hE
          rw [hE] at hb
          simp [ptrs] at hb
        obtain ⟨q, hq, hd⟩ := descend_to_head r hr hrne
        have hnr : n.right ≠ nullptr := by
          cases r with
          | leaf => exact absurd rfl hrne
          | node _ _ _ =>
            obtain ⟨m, _, hm0, -⟩ := repr_ok_node hr
            exact hm0
        have hbq : b = q := by
          rw [List.head?_eq_getElem?] at hq
          injection hb.symm.trans hq
        rw [← hap, hbq]
        exact iter_incr_right hn hnr hd
      · -- both positions are inside the right subtree
        have h1 : i - (ptrs h n.left l).length =
            (i - (ptrs h n.left l).length - 1) + 1 := by omega
        rw [h1, List.getElem?_cons_succ] at ha
        have h2 : i + 1 - (ptrs h n.left l).length =
            ((i - (ptrs h n.left l).length - 1) + 1) + 1 := by omega
        rw [h2, List.getElem?_cons_succ] at hb
        exact ihr hr (List.Nodup.of_cons hndPB) _ ha hb

/-- `operator++` at the last in-order node of a laid-out tree whose root has a
null parent reaches the null pointer. -/
theorem incr_last {h : Heap} {rt : Nat} {t : btree} {x : Nat}
    (hk : repr_ok h rt nullptr t = true)
    (hlast : (ptrs h rt t).getLast? = some x) : IncrTo h x nullptr := by
  have ht : t ≠ btree.leaf := by
    intro hE
    rw [hE] at hlast
    simp [ptrs] at hlast
  obtain ⟨x2, xn, hlast2, hx, hxr, hcl⟩ :=
    climb_from_last t hk ht (iter_climb_exit_null h rt)
  have hxx : x = x2 := by injection hlast.symm.trans hlast2
  rw [hxx]
  exact iter_incr_climb hx hxr hcl

/-- The spec-modelled BST descent misses every key that is not in the tree:
it reaches the end sentinel without finding a node. -/
theorem find_miss : ∀ (t : btree) {s : rb_tree_impl} {p par : Nat} {k : Int},
    s.end_ = nullptr → repr_ok s.heap p par t = true → k ∉ vals t →
    ∀ fuel : Nat, bsize t < fuel → find_ptr s k p fuel = some s.end_ := by
  intro t
  induction t with
  | leaf =>
    intro s p par k hend hk _ fuel hf
    have hp : p = nullptr := repr_ok_leaf hk
    cases fuel with
    | zero => omega
    | succ f =>
      unfold find_ptr
      rw [if_pos (by rw [hp, hend])]
  | node l v r ihl ihr =>
    intro s p par k hend hk hknot fuel hf
    obtain ⟨n, hn, hp0, hv, hpar, hl, hr⟩ := repr_ok_node hk
    simp only [vals, List.mem_append, List.mem_cons] at hknot
    push_neg at hknot
    obtain ⟨hkl, hkv, hkr⟩ := hknot
    cases fuel with
    | zero => omega
    | succ f =>
      unfold find_ptr
      rw [if_neg (by rw [hend]; exact hp0)]
      rw [hn]
      show (if k < n.val then find_ptr s k n.left f
            else if n.val < k then find_ptr s k n.right f else some p) = some s.end_
      have hfl : bsize l < f := by
        simp only [bsize] at hf
        omega
      have hfr : bsize r < f := by
        simp only [bsize] at hf
        omega
      by_cases hlt : k < n.val
      · rw [if_pos hlt]
        exact ihl hend hl hkl f hfl
      · rw [if_neg hlt]
        by_cases hgt : n.val < k
        · rw [if_pos hgt]
          exact ihr hend hr hkr f hfr
        · have hkeq : k = n.val := le_antisymm (not_lt.mp hgt) (not_lt.mp hlt)
          rw [hv] at hkeq
          exact absurd hkeq hkv

/-! ## Claim theorems -/

/-- C1: the claim says every tree obtained from the empty tree by insert/erase
sequences satisfies the red-black invariants afterwards.  In the source
`impl.end` is `nullptr` and never an allocated sentinel, so the very first
insertion dereferences the null parent of the new root inside `insert_fixup`
and never completes: the code produces no tree at all. -/
theorem C1_first_insert_crashes :
    rb_tree_default.end_ = nullptr ∧ insert_key rb_tree_default 10 = none := by decide

/-- C2: the claim says inserting 10, 20, 30 into the empty tree yields a tree
with black root 20 and red children 10 and 30.  The run crashes on the first
insertion (null `impl.end` dereferenced in `insert_fixup`), so no such tree is
produced. -/
theorem C2_scenario_a_crashes :
    run_inserts rb_tree_default [10, 20, 30] = none := by decide

/-- C3: the claim says an insert-fixup iteration with a red uncle performs only
the recolouring (parent and uncle black, grandparent red) and moves the cursor
to the grandparent.  On `sC3` (cursor 7, parent 5, grandparent 4, uncle 6 red)
the source's iteration additionally recolours node 2 red and performs a
rotation that changes the root's left child from 2 to 3, because lines 286-288
are not under the `else` of the uncle-red case; the claim's recolour-only step
leaves both untouched. -/
theorem C3_uncle_red_step_not_recolour_only :
    ((hget sC3.heap 7).map fun n => (n.parent, n.colour)) = some (5, rb_tree_colour.red)
    ∧ ((hget sC3.heap 5).map fun n => (n.parent, n.colour)) = some (4, rb_tree_colour.red)
    ∧ ((hget sC3.heap 4).map fun n => (n.left, n.right)) = some (5, 6)
    ∧ ((hget sC3.heap 6).map fun n => n.colour) = some rb_tree_colour.red
    ∧ ((hget sC3.heap 1).map fun n => n.left) = some 2
    ∧ ((hget sC3.heap 2).map fun n => n.colour) = some rb_tree_colour.black
    ∧ ((insert_fixup_body sC3 7).bind fun r => (hget r.1.heap 1).map fun n => n.left)
        = some 3
    ∧ ((insert_fixup_body sC3 7).bind fun r => (hget r.1.heap 2).map fun n => n.colour)
        = some rb_tree_colour.red
    ∧ ((insert_fixup_uncle_red_claim sC3 7).bind fun r => (hget r.1.heap 1).map fun n => n.left)
        = some 2
    ∧ ((insert_fixup_uncle_red_claim sC3 7).bind fun r => (hget r.1.heap 2).map fun n => n.colour)
        = some rb_tree_colour.black
    ∧ ((insert_fixup_uncle_red_claim sC3 7).map fun r => r.2) = some 4 := by decide

/-- C4: the claim says an erase-fixup iteration whose cursor is a *right*
child with a red sibling performs a *right* rotation of the parent.  On `sC4`
(cursor 4 black, a right child; sibling 3 red) the source's line 241 performs
`left_rotate(x->parent)`, lifting the cursor 4 itself above its parent 2,
whereas the claim's step lifts the sibling 3. -/
theorem C4_sibling_red_step_rotates_wrong_way :
    ((hget sC4.heap 4).map fun n => (n.parent, n.colour)) = some (2, rb_tree_colour.black)
    ∧ ((hget sC4.heap 2).map fun n => (n.left, n.right)) = some (3, 4)
    ∧ ((hget sC4.heap 3).map fun n => n.colour) = some rb_tree_colour.red
    ∧ ((remove_fixup_body sC4 4).bind fun r => (hget r.1.heap 2).map fun n => n.parent)
        = some 4
    ∧ ((remove_fixup_body sC4 4).bind fun r => (hget r.1.heap 1).map fun n => n.left)
        = some 4
    ∧ ((erase_fixup_sibling_red_claim sC4 4).bind fun r => (hget r.1.heap 2).map fun n => n.parent)
        = some 3
    ∧ ((erase_fixup_sibling_red_claim sC4 4).bind fun r => (hget r.1.heap 1).map fun n => n.left)
        = some 3 := by decide

/-- C5: the claim says a rotation at the root updates the tree's root pointer.
`right_rotate` tests `y == impl.end` instead of `y->parent == impl.end` (line
355), so rotating at the root it falls into the `y == y->parent->left` branch,
dereferences the root's null parent and crashes; the spec's right rotation
updates the root to the left child.  (`left_rotate`, whose test is correct,
does update the root pointer.) -/
theorem C5_right_rotate_at_root_crashes :
    sC5.root = 1
    ∧ ((hget sC5.heap 1).map fun n => (n.parent, n.left)) = some (nullptr, 2)
    ∧ right_rotate sC5 1 = none
    ∧ (rotate_right_spec sC5 1).map (fun s => s.root) = some 2 := by decide

/-- C6: for every heap laying out a binary tree (null-terminated leaves,
correct parent back-links, distinct addresses) with the tree's root parent
null — the shape of every tree this code builds, whose `impl.end` is the null
pointer — `operator++` started at the `i`-th in-order node terminates at the
`(i+1)`-th in-order node, and started at the maximum (the last in-order node)
it terminates at the null pointer, i.e. exactly the `end()` iterator. -/
theorem C6_increment_is_inorder_successor (s : rb_tree_impl) (t : btree)
    (a : Nat) (hend : s.end_ = nullptr)
    (hk : repr_ok s.heap s.root nullptr t = true)
    (hnd : (ptrs s.heap s.root t).Nodup)
    (i : Nat) (ha : (ptrs s.heap s.root t)[i]? = some a) :
    IncrTo s.heap a
      (match (ptrs s.heap s.root t)[i + 1]? with
       | some b => b
       | none => tree_end s) := by
  cases hb : (ptrs s.heap s.root t)[i + 1]? with
  | some b => exact incr_internal t hk hnd i ha hb
  | none =>
    have hlen : (ptrs s.heap s.root t).length = i + 1 := by
      obtain ⟨hi, -⟩ := List.getElem?_eq_some_iff.mp ha
      have hge := List.getElem?_eq_none_iff.mp hb
      omega
    have hlast : (ptrs s.heap s.root t).getLast? = some a := by
      rw [List.getLast?_eq_getElem?, hlen]
      simpa using ha
    have hret : tree_end s = nullptr := hend
    rw [hret]
    exact incr_last hk hlast

/-- C6 witness: on the three-node tree `sW` (in-order addresses `[2, 1, 3]`),
the increment at node 2 (key 10) reaches node 1 (key 20), and the increment at
the maximum node 3 (key 30) reaches the end iterator (the null pointer). -/
theorem C6_witness :
    IncrTo sW.heap 2
      (match (ptrs sW.heap sW.root tW)[0 + 1]? with
       | some b => b
       | none => tree_end sW) ∧
    IncrTo sW.heap 3
      (match (ptrs sW.heap sW.root tW)[2 + 1]? with
       | some b => b
       | none => tree_end sW) :=
  ⟨C6_increment_is_inorder_successor sW tW 2 (by decide) (by decide) (by decide)
      0 (by decide),
   C6_increment_is_inorder_successor sW tW 3 (by decide) (by decide) (by decide)
      2 (by decide)⟩

/-- C7: the claim says decrementing the end iterator of a non-empty tree yields
the maximum element.  `iterator::operator--` is a `// TODO` stub returning
`*this` unchanged, so on the non-empty tree `sW` (maximum node 3) decrementing
the end iterator stays at the end sentinel. -/
theorem C7_decrement_is_a_stub :
    tree_empty sW = false
    ∧ ((hget hW 1).map fun n => n.right) = some 3
    ∧ ((hget hW 3).map fun n => n.right) = some nullptr
    ∧ iter_decr hW (tree_end sW) = tree_end sW
    ∧ tree_end sW ≠ 3 := by decide

/-- C10: no function on the insertion path (`insert`, `insert_fixup`, the
rotations) ever writes `impl.begin` or `impl.end`, so any successful sequence
of insertions leaves both fields unchanged; in particular a tree that
satisfied `empty()` (i.e. `impl.begin == impl.end`) still does, and `begin()`
still equals `end()`. -/
theorem C10_insert_preserves_begin_end (s : rb_tree_impl) (vs : List Int)
    (s' : rb_tree_impl) (hr : run_inserts s vs = some s') :
    s'.begin_ = s.begin_ ∧ s'.end_ = s.end_
    ∧ tree_empty s' = tree_empty s
    ∧ (tree_begin s = tree_end s → tree_begin s' = tree_end s') := by
  obtain ⟨h1, h2⟩ := run_inserts_frame vs s s' hr
  refine ⟨h1, h2, ?_, ?_⟩
  · unfold tree_empty
    rw [h1, h2]
  · intro h
    unfold tree_begin tree_end at h ⊢
    rw [h1, h2]
    exact h

/-- C10 witness: a concrete successful insertion (key 20 into the single-node
tree holding 10) to which the theorem applies. -/
theorem C10_witness :
    ∃ s', run_inserts (rb_tree_single 10) [20] = some s'
      ∧ s'.begin_ = (rb_tree_single 10).begin_
      ∧ s'.end_ = (rb_tree_single 10).end_
      ∧ tree_empty s' = tree_empty (rb_tree_single 10) := by
  cases hM : run_inserts (rb_tree_single 10) [20] with
  | none => exact absurd hM (by decide)
  | some s' =>
    have h := C10_insert_preserves_begin_end (rb_tree_single 10) [20] s' hM
    exact ⟨s', rfl, h.1, h.2.1, h.2.2.1⟩

/-- C8: erase-by-key is absent from the source (`rb_tree::remove` takes a node
pointer), so the locate step is modelled from the spec (`find` descent, then
NotFound when the descent reaches the sentinel).  On an empty tree (`t =
btree.leaf` forces `root = nullptr`) or when the key is not among the tree's
keys, the operation reports `NotFound` and returns the state unchanged — no
heap write, no recolouring, no size change, since the input state is returned
as-is. -/
theorem C8_erase_missing_key_not_found (s : rb_tree_impl) (t : btree) (k : Int)
    (hend : s.end_ = nullptr) (hk : repr_ok s.heap s.root nullptr t = true)
    (hknot : k ∉ vals t) (fuel : Nat) (hf : bsize t < fuel) :
    erase_by_key s k fuel = some (erase_result.notFound, s) := by
  unfold erase_by_key
  rw [find_miss t hend hk hknot fuel hf]
  simp

/-- C8 witness: on the three-node tree `sW` (keys 10, 20, 30) erasing the
absent key 99 reports NotFound with the state unchanged, and likewise erasing
key 5 from the default-constructed empty tree. -/
theorem C8_witness :
    erase_by_key sW 99 10 = some (erase_result.notFound, sW)
    ∧ erase_by_key rb_tree_default 5 1 = some (erase_result.notFound, rb_tree_default) :=
  ⟨C8_erase_missing_key_not_found sW tW 99 (by decide) (by decide) (by decide)
      10 (by decide),
   C8_erase_missing_key_not_found rb_tree_default btree.leaf 5 (by decide)
      (by decide) (by decide) 1 (by decide)⟩

/-- C9: the claim says leaf child pointers compare equal to the sentinel and
never to a null value, and that the sentinel is always black.  In the source
`impl.end` is initialised to `nullptr`, no sentinel node is ever allocated
(the constructors' heaps hold none), and the leaf pointers of a
single-element tree are exactly the null value. -/
theorem C9_sentinel_is_null :
    rb_tree_default.end_ = nullptr
    ∧ hget rb_tree_default.heap rb_tree_default.end_ = none
    ∧ (rb_tree_single 5).end_ = nullptr
    ∧ ((hget (rb_tree_single 5).heap (rb_tree_single 5).root).map fun n => (n.left, n.right))
        = some (nullptr, nullptr)
    ∧ hget (rb_tree_single 5).heap (rb_tree_single 5).end_ = none := by decide

end cudlb
